import Mathlib

/-!
Verification of the Checkora chess orchestration core (`src/game/engine.py`,
`src/game/views.py`) against its natural-language specification.

The Python code is shallowly embedded below.  Python machine behaviour is
modelled explicitly:

* Python list indexing `xs[i]` (negative indices wrap, out-of-range raises
  `IndexError`) is `pyIdx` / `pySet`;
* fallible operations run in `Except PyErr`;
* the external C++ engine process (`ChessGame._call_engine`, which returns
  `None` on absent binary / timeout / process error and the stripped stdout
  otherwise) is an oracle parameter `engine : List Char → Option (List Char)`;
* wall-clock time (`time.time()`) is an explicit integer parameter `now`;
* Python `dict` is an insertion-ordered association list with
  `lookupAssoc` / `insertAssoc`;
* Python `str(int)` / `int(str)` are `intToChars` / `charsToInt`, defined at
  the decimal-digit level.

Engine-call counting: `get_valid_moves` additionally returns the number of
engine queries it performed (0 or 1), so that the cache-memoization claims
can be stated.
-/

/-- Python exception kinds that the embedded code can raise. -/
inductive PyErr where
  | indexError
  | valueError
  | keyError
deriving DecidableEq

deriving instance DecidableEq for Except

/-- Python list read `xs[i]`: negative indices count from the end,
out-of-range raises `IndexError`. -/
def pyIdx {α : Type} (xs : List α) (i : Int) : Except PyErr α :=
  let j : Int := if i < 0 then i + xs.length else i
  if 0 ≤ j then
    match xs.get? j.toNat with
    | some a => .ok a
    | none => .error .indexError
  else .error .indexError

/-- Python list write `xs[i] = a` (returning the updated list). -/
def pySet {α : Type} (xs : List α) (i : Int) (a : α) : Except PyErr (List α) :=
  let j : Int := if i < 0 then i + xs.length else i
  if 0 ≤ j then
    if j < xs.length then .ok (xs.set j.toNat a) else .error .indexError
  else .error .indexError

/-- First-match lookup in an association list (Python `dict` lookup;
keys are unique in a real dict, so first match is the match). -/
def lookupAssoc {β : Type} (xs : List ((Int × Int) × β)) (k : Int × Int) : Option β :=
  match xs with
  | [] => none
  | (k', v) :: rest => if k' = k then some v else lookupAssoc rest k

/-- Python `dict` assignment `d[k] = v`: overwrite in place if the key is
present, otherwise append at the end (insertion order). -/
def insertAssoc {β : Type} (xs : List ((Int × Int) × β)) (k : Int × Int) (v : β) :
    List ((Int × Int) × β) :=
  match xs with
  | [] => [(k, v)]
  | (k', v') :: rest =>
    if k' = k then (k', v) :: rest else (k', v') :: insertAssoc rest k v

/-- Decimal digit to character. -/
def digitToChar (d : Nat) : Char :=
  ['0', '1', '2', '3', '4', '5', '6', '7', '8', '9'].getD d '9'

/-- Character to decimal digit, `none` when not a digit. -/
def charToDigit (c : Char) : Option Nat :=
  if c = '0' then some 0 else if c = '1' then some 1 else if c = '2' then some 2
  else if c = '3' then some 3 else if c = '4' then some 4 else if c = '5' then some 5
  else if c = '6' then some 6 else if c = '7' then some 7 else if c = '8' then some 8
  else if c = '9' then some 9 else none

/-- Fuel-driven decimal rendering of a positive natural, most significant
digit first.  `natCharsAux fuel n` is correct whenever `n ≤ fuel`. -/
def natCharsAux : Nat → Nat → List Char
  | 0, _ => []
  | fuel + 1, n =>
    if n = 0 then [] else natCharsAux fuel (n / 10) ++ [digitToChar (n % 10)]

/-- Model of Python `str(n)` for a natural number. -/
def natToChars (n : Nat) : List Char :=
  if n = 0 then ['0'] else natCharsAux n n

/-- Model of Python `str(i)` for an integer. -/
def intToChars (i : Int) : List Char :=
  if i < 0 then '-' :: natToChars i.natAbs else natToChars i.natAbs

/-- One step of decimal parsing: accumulate a digit. -/
def natParseStep (acc : Option Nat) (c : Char) : Option Nat :=
  match acc, charToDigit c with
  | some a, some d => some (a * 10 + d)
  | _, _ => none

/-- Model of Python `int(s)` on an unsigned token: fails on the empty string
or any non-digit character. -/
def charsToNat (cs : List Char) : Option Nat :=
  if cs = [] then none else cs.foldl natParseStep (some 0)

/-- Model of Python `int(s)`: optional sign, then digits. -/
def charsToInt (cs : List Char) : Option Int :=
  match cs with
  | [] => none
  | c :: rest =>
    if c = '-' then (charsToNat rest).map (fun n => -(n : Int))
    else if c = '+' then (charsToNat rest).map (fun n => (n : Int))
    else (charsToNat (c :: rest)).map (fun n => (n : Int))

/-- Model of Python `str.split(',')`: split at every comma, keeping empties. -/
def splitOnComma : List Char → List (List Char)
  | [] => [[]]
  | c :: rest =>
    if c = ',' then [] :: splitOnComma rest
    else
      match splitOnComma rest with
      | [] => [[c]]
      | g :: gs => (c :: g) :: gs

/-- Whitespace as recognised by Python `str.split()`. -/
def isPySpace (c : Char) : Bool :=
  c = ' ' || c = '\t' || c = '\n' || c = '\r'

/-- Helper for `pySplitWs`: split at every whitespace character. -/
def splitWsAux : List Char → List (List Char)
  | [] => [[]]
  | c :: rest =>
    if isPySpace c then [] :: splitWsAux rest
    else
      match splitWsAux rest with
      | [] => [[c]]
      | g :: gs => (c :: g) :: gs

/-- Model of Python `str.split()` (no argument): split on whitespace runs,
dropping empty tokens. -/
def pySplitWs (cs : List Char) : List (List Char) :=
  (splitWsAux cs).filter (fun g => !g.isEmpty)

/-- Model of Python `str.startswith`. -/
def startsWithL : List Char → List Char → Bool
  | _, [] => true
  | [], _ :: _ => false
  | c :: cs, p :: ps => c = p && startsWithL cs ps

/-- Model of Python `int(token)` raising `ValueError` on failure. -/
def pyInt (tok : List Char) : Except PyErr Int :=
  match charsToInt tok with
  | some i => .ok i
  | none => .error .valueError

/-- A board cell: `None` or a one-character piece symbol. -/
abbrev Cell := Option Char

/-- The 8×8 board, a list of rows of cells. -/
abbrev Board := List (List Cell)

/-- A candidate destination as parsed from the engine's `MOVES` reply. -/
structure MoveDesc where
  row : Int
  col : Int
  is_capture : Bool
  is_promotion : Bool
deriving DecidableEq

/-- One `move_history` entry (`ChessGame.make_move`, lines 151-159). -/
structure HistEntry where
  nota : List Char
  piece : Cell
  fromSq : Int × Int
  toSq : Int × Int
  captured : Cell
  color : String
  promoted_to : Cell
deriving DecidableEq

/-- The full `ChessGame` state (`ChessGame.__init__`): the `captured` dict is
split into its two lists. -/
structure GameState where
  board : Board
  current_turn : String
  move_history : List HistEntry
  captured_white : List Char
  captured_black : List Char
  valid_moves_cache : List ((Int × Int) × List MoveDesc)
  white_time : Int
  black_time : Int
  last_ts : Int
  paused : Bool
deriving DecidableEq

/-- `ChessGame.INITIAL_BOARD`. -/
def initBoard : Board :=
  [[some 'r', some 'n', some 'b', some 'q', some 'k', some 'b', some 'n', some 'r'],
   [some 'p', some 'p', some 'p', some 'p', some 'p', some 'p', some 'p', some 'p'],
   [none, none, none, none, none, none, none, none],
   [none, none, none, none, none, none, none, none],
   [none, none, none, none, none, none, none, none],
   [none, none, none, none, none, none, none, none],
   [some 'P', some 'P', some 'P', some 'P', some 'P', some 'P', some 'P', some 'P'],
   [some 'R', some 'N', some 'B', some 'Q', some 'K', some 'B', some 'N', some 'R']]

/-- `ChessGame.__init__`: fresh game; `ts` models `time.time()` at
construction. -/
def initGame (ts : Int) : GameState :=
  { board := initBoard, current_turn := "white", move_history := [],
    captured_white := [], captured_black := [], valid_moves_cache := [],
    white_time := 600, black_time := 600, last_ts := ts, paused := false }

/-- Python `self.board[r][c]`. -/
def boardGet (b : Board) (r c : Int) : Except PyErr Cell := do
  let row ← pyIdx b r
  pyIdx row c

/-- Python `self.board[r][c] = v`. -/
def boardSet (b : Board) (r c : Int) (v : Cell) : Except PyErr Board := do
  let row ← pyIdx b r
  let row' ← pySet row c v
  pySet b r row'

/-- `ChessGame.serialize_board`: flatten to the 64-char wire form. -/
def serialize_board (b : Board) : List Char :=
  (b.map (fun row => row.map (fun cell => cell.getD '.'))).flatten

/-- `ChessGame._color`. -/
def colorOf (p : Char) : String :=
  if p.isUpper then "white" else "black"

/-- Turn flip (`make_move`, line 165): `'black' if turn == 'white' else 'white'`. -/
def flipTurn (t : String) : String :=
  if t = "white" then "black" else "white"

/-- `ChessGame.update_clock`: `now` models `time.time()`. -/
def update_clock (now : Int) (g : GameState) : GameState :=
  if g.paused then { g with last_ts := now }
  else
    let elapsed := now - g.last_ts
    if elapsed > 0 then
      if g.current_turn = "white" then
        { g with white_time := max 0 (g.white_time - elapsed), last_ts := now }
      else
        { g with black_time := max 0 (g.black_time - elapsed), last_ts := now }
    else { g with last_ts := now }

/-- `ChessGame._is_promotion`. -/
def is_promo_piece (piece : Cell) (tr : Int) : Bool :=
  match piece with
  | some p => (p == 'P' && tr == 0) || (p == 'p' && tr == 7)
  | none => false

/-- `(promotion_piece or 'q').lower()` (empty string and `None` are falsy). -/
def choiceOf (promo : Option (List Char)) : List Char :=
  match promo with
  | none => ['q']
  | some s => if s = [] then ['q'] else s.map Char.toLower

/-- The validated lower-case promotion choice of `ChessGame._promote`:
one of q/r/b/n, anything else falling back to queen. -/
def promoChoiceChar (promo : Option (List Char)) : Char :=
  let ch := choiceOf promo
  if ch = ['q'] then 'q' else if ch = ['r'] then 'r'
  else if ch = ['b'] then 'b' else if ch = ['n'] then 'n' else 'q'

/-- `ChessGame._promote`: promoted piece character, defaulting to queen,
matching the pawn's case. -/
def promoteChar (p : Char) (promo : Option (List Char)) : Char :=
  if p.isUpper then (promoChoiceChar promo).toUpper
  else (promoChoiceChar promo).toLower

/-- The command string sent by `ChessGame._get_engine_moves`. -/
def movesCmd (g : GameState) (row col : Int) : List Char :=
  "MOVES ".toList ++ serialize_board g.board ++ [' '] ++ g.current_turn.toList
    ++ [' '] ++ intToChars row ++ [' '] ++ intToChars col

/-- The command string sent by `ChessGame._call_engine_promote`. -/
def promoteCmd (g : GameState) (fr fc tr tc : Int) (choice : List Char) : List Char :=
  "PROMOTE ".toList ++ serialize_board g.board ++ [' '] ++ g.current_turn.toList
    ++ [' '] ++ intToChars fr ++ [' '] ++ intToChars fc ++ [' ']
    ++ intToChars tr ++ [' '] ++ intToChars tc ++ [' '] ++ choice

/-- Parse the tail of a `MOVES` reply, four tokens per move
(`_get_engine_moves`, lines 196-207).  Python evaluates `int(parts[i])`,
`int(parts[i+1])`, ... left to right, so a malformed token raises
`ValueError` and a truncated group raises `IndexError`. -/
def parseMoves : List (List Char) → Except PyErr (List MoveDesc)
  | [] => .ok []
  | [t0] => do
    let _ ← pyInt t0
    .error .indexError
  | [t0, t1] => do
    let _ ← pyInt t0
    let _ ← pyInt t1
    .error .indexError
  | [t0, t1, t2] => do
    let _ ← pyInt t0
    let _ ← pyInt t1
    let _ ← pyInt t2
    .error .indexError
  | t0 :: t1 :: t2 :: t3 :: rest => do
    let r ← pyInt t0
    let c ← pyInt t1
    let cap ← pyInt t2
    let pr ← pyInt t3
    let ms ← parseMoves rest
    .ok ({ row := r, col := c, is_capture := cap ≠ 0, is_promotion := pr ≠ 0 } :: ms)

/-- `ChessGame._get_engine_moves`: `engine` models `_call_engine` (which
returns `None` on absent binary, timeout or process error). -/
def get_engine_moves (engine : List Char → Option (List Char)) (g : GameState)
    (row col : Int) : Except PyErr (List MoveDesc) :=
  match engine (movesCmd g row col) with
  | none => .ok []
  | some resp =>
    if startsWithL resp "MOVES".toList then parseMoves ((pySplitWs resp).drop 1)
    else .ok []

/-- `ChessGame._call_engine_promote`: returns the second reply token
(the new board wire form) on a matching reply, `None` otherwise; raises
`IndexError` when the verb matches but the board token is missing. -/
def call_engine_promote (engine : List Char → Option (List Char)) (g : GameState)
    (fr fc tr tc : Int) (choice : List Char) : Except PyErr (Option (List Char)) :=
  match engine (promoteCmd g fr fc tr tc choice) with
  | none => .ok none
  | some resp =>
    if startsWithL resp "PROMOTE".toList then
      match (pySplitWs resp).get? 1 with
      | some tok => .ok (some tok)
      | none => .error .indexError
    else .ok none

/-- `ChessGame._parse_board64`: the Python loop reads `board_str[r*8+c]` for
all 64 positions, so it raises `IndexError` exactly when the string is
shorter than 64 characters. -/
def parse_board64 (cs : List Char) : Except PyErr Board :=
  if 64 ≤ cs.length then
    .ok ((List.range 8).map fun r => (List.range 8).map fun c =>
      let ch := cs.getD (r * 8 + c) '.'
      if ch = '.' then none else some ch)
  else .error .indexError

/-- `ChessGame.get_valid_moves`: the extra `Nat` counts engine queries made
by this call (0 or 1). -/
def get_valid_moves (engine : List Char → Option (List Char)) (g : GameState)
    (row col : Int) : Except PyErr (List MoveDesc × GameState × Nat) := do
  let piece ← boardGet g.board row col
  match piece with
  | none => .ok ([], g, 0)
  | some p =>
    if colorOf p = g.current_turn then
      match lookupAssoc g.valid_moves_cache (row, col) with
      | some mv => .ok (mv, g, 0)
      | none => do
        let mvE ← get_engine_moves engine g row col
        let g' := { g with
          valid_moves_cache := insertAssoc g.valid_moves_cache (row, col) mvE }
        .ok ((lookupAssoc g'.valid_moves_cache (row, col)).getD [], g', 1)
    else .ok ([], g, 0)

/-- `ChessGame.validate_move`. -/
def validate_move (engine : List Char → Option (List Char)) (g : GameState)
    (fr fc tr tc : Int) : Except PyErr ((Bool × List Char) × GameState) := do
  let r ← get_valid_moves engine g fr fc
  if r.1.any (fun m => m.row == tr && m.col == tc) then
    .ok ((true, "Valid move.".toList), r.2.1)
  else .ok ((false, "Illegal move.".toList), r.2.1)

/-- `ChessGame.FILES`. -/
def FILES : List Char := "abcdefgh".toList

/-- `ChessGame._notation`. -/
def mkNota (fr fc tr tc : Int) : Except PyErr (List Char) := do
  let f1 ← pyIdx FILES fc
  let f2 ← pyIdx FILES tc
  .ok (f1 :: intToChars (8 - fr) ++ " -> ".toList ++ f2 :: intToChars (8 - tr))

/-- Board-update phase of `make_move` (lines 124-143): promotion via the
engine, the local promotion fallback, or the plain move. -/
def mm_board_update (engine : List Char → Option (List Char)) (g : GameState)
    (fr fc tr tc : Int) (promo : Option (List Char)) (piece : Cell) :
    Except PyErr (Board × Bool) :=
  match piece with
  | some p =>
    if is_promo_piece (some p) tr then do
      let nb ← call_engine_promote engine g fr fc tr tc (choiceOf promo)
      match nb with
      | some nbs => do
        let b ← parse_board64 nbs
        Except.ok (b, true)
      | none => do
        let b1 ← boardSet g.board tr tc (some (promoteChar p promo))
        let b ← boardSet b1 fr fc none
        Except.ok (b, true)
    else do
      let b1 ← boardSet g.board tr tc (some p)
      let b ← boardSet b1 fr fc none
      Except.ok (b, false)
  | none => do
    let b1 ← boardSet g.board tr tc none
    let b ← boardSet b1 fr fc none
    Except.ok (b, false)

/-- Result of the mutation phase of `make_move` (lines 124-159): new board,
promotion flag, captured cell, notation, history entry, and the two updated
captured lists. -/
structure MutRes where
  board : Board
  promoted : Bool
  captured : Cell
  nota : List Char
  entry : HistEntry
  cw : List Char
  cb : List Char
deriving DecidableEq

/-- Capture recording of `make_move` (lines 145-146):
`self.captured[self.current_turn].append(captured)` — a `KeyError` for a
turn outside {white, black}. -/
def mm_captured (g : GameState) (captured : Cell) : Except PyErr (List Char × List Char) :=
  match captured with
  | none => .ok (g.captured_white, g.captured_black)
  | some c =>
    if g.current_turn = "white" then .ok (g.captured_white ++ [c], g.captured_black)
    else if g.current_turn = "black" then .ok (g.captured_white, g.captured_black ++ [c])
    else .error .keyError

/-- Notation suffix of `make_move` (lines 149-150): append
`'=' + (board[tr][tc] or 'Q').upper()` when a promotion happened. -/
def mm_nota2 (b2 : Board) (promoted : Bool) (tr tc : Int) (nota1 : List Char) :
    Except PyErr (List Char) :=
  if promoted then do
    let pc ← boardGet b2 tr tc
    .ok (nota1 ++ '=' :: [(pc.getD 'Q').toUpper])
  else .ok nota1

/-- The `promoted_to` history field (line 158): the updated destination cell
when a promotion happened, `None` otherwise. -/
def mm_ptc (b2 : Board) (promoted : Bool) (tr tc : Int) : Except PyErr Cell :=
  if promoted then boardGet b2 tr tc else .ok none

/-- Mutation phase of `make_move` (lines 124-159): board update, capture
recording, notation and history entry. -/
def mm_mutate (engine : List Char → Option (List Char)) (g : GameState)
    (fr fc tr tc : Int) (promo : Option (List Char)) : Except PyErr MutRes := do
  let piece ← boardGet g.board fr fc
  let captured ← boardGet g.board tr tc
  let bp ← mm_board_update engine g fr fc tr tc promo piece
  let cwcb ← mm_captured g captured
  let nota1 ← mkNota fr fc tr tc
  let nota2 ← mm_nota2 bp.1 bp.2 tr tc nota1
  let ptc ← mm_ptc bp.1 bp.2 tr tc
  let entry : HistEntry :=
    { nota := nota2, piece := piece, fromSq := (fr, fc), toSq := (tr, tc),
      captured := captured, color := g.current_turn, promoted_to := ptc }
  .ok { board := bp.1, promoted := bp.2, captured := captured, nota := nota2,
        entry := entry, cw := cwcb.1, cb := cwcb.2 }

/-- The message returned when the white counter reaches zero. -/
def wMsg : List Char := "White ran out of time".toList

/-- The message returned when the black counter reaches zero. -/
def bMsg : List Char := "Black ran out of time".toList

/-- Turn-ending phase of `make_move` (lines 161-176): clear the cache, flip
the turn, run `update_clock`, check both counters, and stamp `last_ts` on
success. -/
def mm_finish (now : Int) (g : GameState) (m : MutRes) :
    Bool × List Char × Cell × GameState :=
  let g2 : GameState :=
    { board := m.board, current_turn := flipTurn g.current_turn,
      move_history := g.move_history ++ [m.entry],
      captured_white := m.cw, captured_black := m.cb,
      valid_moves_cache := [], white_time := g.white_time,
      black_time := g.black_time, last_ts := g.last_ts, paused := g.paused }
  let g3 := update_clock now g2
  if g3.white_time = 0 then (false, wMsg, none, g3)
  else if g3.black_time = 0 then (false, bMsg, none, g3)
  else (true, m.nota, m.captured, { g3 with last_ts := now })

/-- `ChessGame.make_move`: returns `(success, message, captured, new state)`.
`now` models `time.time()`. -/
def make_move (engine : List Char → Option (List Char)) (now : Int) (g : GameState)
    (fr fc tr tc : Int) (promo : Option (List Char)) :
    Except PyErr (Bool × List Char × Cell × GameState) := do
  let m ← mm_mutate engine g fr fc tr tc promo
  .ok (mm_finish now g m)

/-- The serialized session snapshot (`ChessGame.to_dict`): cache keys are
`"row,col"` strings. -/
structure SessionDict where
  board : Board
  current_turn : String
  move_history : List HistEntry
  captured_white : List Char
  captured_black : List Char
  valid_moves_cache : List (List Char × List MoveDesc)
  white_time : Int
  black_time : Int
  last_ts : Int
  paused : Bool
deriving DecidableEq

/-- The `f"{r},{c}"` cache key of `to_dict`. -/
def encodeKey (k : Int × Int) : List Char :=
  intToChars k.1 ++ ',' :: intToChars k.2

/-- `ChessGame.to_dict`. -/
def to_dict (g : GameState) : SessionDict :=
  { board := g.board, current_turn := g.current_turn,
    move_history := g.move_history, captured_white := g.captured_white,
    captured_black := g.captured_black,
    valid_moves_cache := g.valid_moves_cache.map (fun e => (encodeKey e.1, e.2)),
    white_time := g.white_time, black_time := g.black_time,
    last_ts := g.last_ts, paused := g.paused }

/-- `r, c = map(int, k.split(','))` in `from_dict`: exactly two comma-separated
integer tokens, `ValueError` otherwise. -/
def decodeKey (k : List Char) : Except PyErr (Int × Int) :=
  match splitOnComma k with
  | [a, b] =>
    match charsToInt a, charsToInt b with
    | some r, some c => .ok (r, c)
    | _, _ => .error .valueError
  | _ => .error .valueError

/-- The cache-rebuilding loop of `from_dict` (lines 82-86). -/
def decodeCache : List (List Char × List MoveDesc) →
    List ((Int × Int) × List MoveDesc) →
    Except PyErr (List ((Int × Int) × List MoveDesc))
  | [], acc => .ok acc
  | (k, v) :: rest, acc => do
    let kd ← decodeKey k
    decodeCache rest (insertAssoc acc kd v)

/-- `ChessGame.from_dict`. -/
def from_dict (d : SessionDict) : Except PyErr GameState := do
  let cache ← decodeCache d.valid_moves_cache []
  .ok { board := d.board, current_turn := d.current_turn,
        move_history := d.move_history, captured_white := d.captured_white,
        captured_black := d.captured_black, valid_moves_cache := cache,
        white_time := d.white_time, black_time := d.black_time,
        last_ts := d.last_ts, paused := d.paused }

/-- The JSON payload of the `/api/move/` endpoint's response. -/
structure MoveResp where
  valid : Bool
  message : List Char
  captured : Cell
  board : Board
  current_turn : String
  white_time : Int
  black_time : Int
  move_history : List HistEntry
  captured_white : List Char
  captured_black : List Char
deriving DecidableEq

/-- `views.make_move` after the integer-parsing guard: loads the session (or
a fresh game), runs `ChessGame.make_move`, and persists the session only on
success. -/
def view_make_move (engine : List Char → Option (List Char)) (now : Int)
    (session : Option GameState) (fr fc tr tc : Int) (promo : Option (List Char)) :
    Except PyErr (MoveResp × Option GameState) := do
  let game := match session with | some g => g | none => initGame now
  let r ← make_move engine now game fr fc tr tc promo
  let g' := r.2.2.2
  .ok ({ valid := r.1, message := r.2.1, captured := r.2.2.1, board := g'.board,
         current_turn := g'.current_turn, white_time := g'.white_time,
         black_time := g'.black_time, move_history := g'.move_history,
         captured_white := g'.captured_white, captured_black := g'.captured_black },
       if r.1 then some g' else session)

/-- `views.valid_moves` after the integer-parsing guard: empty list without a
session, otherwise `ChessGame.get_valid_moves` (cache changes are not
persisted by this endpoint). -/
def view_valid_moves (engine : List Char → Option (List Char))
    (session : Option GameState) (row col : Int) : Except PyErr (List MoveDesc) :=
  match session with
  | none => .ok []
  | some g => do
    let r ← get_valid_moves engine g row col
    .ok r.1

/-- The always-failing engine oracle: models `_call_engine` when the binary
is absent, times out, or errors. -/
def engNone : List Char → Option (List Char) := fun _ => none

/-- A board is well-formed when it is 8 rows of 8 cells. -/
def WFBoard (b : Board) : Prop := b.length = 8 ∧ ∀ row ∈ b, row.length = 8

/-- A concrete state with a non-empty cache (including a negative key), a
non-empty history and a non-empty captured list, for the C3 witness. -/
def c3g : GameState :=
  { board := initBoard, current_turn := "black",
    move_history := [⟨"e2 -> e4".toList, some 'P', (6, 4), (4, 4), none, "white", none⟩],
    captured_white := ['p'], captured_black := [],
    valid_moves_cache := [((6, 4), [⟨5, 4, false, false⟩]), ((-1, -2), [])],
    white_time := 600, black_time := 595, last_ts := 7, paused := true }

/-- The pre-move snapshot for the C5 scenario: black to move, white's
counter at 3 seconds. -/
def c5S : GameState := { initGame 0 with current_turn := "black", white_time := 3 }

/-- The in-memory state after black plays (1,4)→(3,4) at `now = 5` from
`c5S`: the move is applied, the turn flips to white, and white's counter is
floored at 0. -/
def c5G : GameState :=
  { board :=
      [[some 'r', some 'n', some 'b', some 'q', some 'k', some 'b', some 'n', some 'r'],
       [some 'p', some 'p', some 'p', some 'p', none, some 'p', some 'p', some 'p'],
       [none, none, none, none, none, none, none, none],
       [none, none, none, none, some 'p', none, none, none],
       [none, none, none, none, none, none, none, none],
       [none, none, none, none, none, none, none, none],
       [some 'P', some 'P', some 'P', some 'P', some 'P', some 'P', some 'P', some 'P'],
       [some 'R', some 'N', some 'B', some 'Q', some 'K', some 'B', some 'N', some 'R']],
    current_turn := "white",
    move_history := [⟨"e7 -> e5".toList, some 'p', (1, 4), (3, 4), none, "black", none⟩],
    captured_white := [], captured_black := [],
    valid_moves_cache := [], white_time := 0, black_time := 600,
    last_ts := 5, paused := false }

/-- A state with the (6,4) destination list already memoized, as produced by
a first `get_valid_moves` call with the engine absent. -/
def c7g : GameState := { initGame 0 with valid_moves_cache := [((6, 4), [])] }

/-- A position with a white pawn on a7 ready to promote, used for the
promotion scenarios. -/
def promoState : GameState :=
  { initGame 0 with board :=
      [[none, some 'n', some 'b', some 'q', some 'k', some 'b', some 'n', some 'r'],
       [some 'P', some 'p', some 'p', some 'p', some 'p', some 'p', some 'p', some 'p'],
       [none, none, none, none, none, none, none, none],
       [none, none, none, none, none, none, none, none],
       [none, none, none, none, none, none, none, none],
       [none, none, none, none, none, none, none, none],
       [none, some 'P', some 'P', some 'P', some 'P', some 'P', some 'P', some 'P'],
       [some 'R', some 'N', some 'B', some 'Q', some 'K', some 'B', some 'N', some 'R']] }

/-- The state after the fallback promotion (1,0)→(0,0) with choice `"r"`
from `promoState` at `now = 0`: a white rook appears on a8, a7 empties, the
turn flips to black. -/
def c9G : GameState :=
  { board :=
      [[some 'R', some 'n', some 'b', some 'q', some 'k', some 'b', some 'n', some 'r'],
       [none, some 'p', some 'p', some 'p', some 'p', some 'p', some 'p', some 'p'],
       [none, none, none, none, none, none, none, none],
       [none, none, none, none, none, none, none, none],
       [none, none, none, none, none, none, none, none],
       [none, none, none, none, none, none, none, none],
       [none, some 'P', some 'P', some 'P', some 'P', some 'P', some 'P', some 'P'],
       [some 'R', some 'N', some 'B', some 'Q', some 'K', some 'B', some 'N', some 'R']],
    current_turn := "black",
    move_history := [⟨"a7 -> a8=R".toList, some 'P', (1, 0), (0, 0), none, "white",
      some 'R'⟩],
    captured_white := [], captured_black := [],
    valid_moves_cache := [], white_time := 600, black_time := 600,
    last_ts := 0, paused := false }

/-- An engine oracle whose replies, when they carry the expected verb, also
have the expected token shape (parseable `MOVES` groups; a `PROMOTE` board
token of at least 64 characters). -/
def EngineOK (engine : List Char → Option (List Char)) : Prop :=
  ∀ cmd resp, engine cmd = some resp →
    (startsWithL resp "MOVES".toList = true →
      ∃ ms, parseMoves ((pySplitWs resp).drop 1) = .ok ms) ∧
    (startsWithL resp "PROMOTE".toList = true →
      ∃ tok, (pySplitWs resp).get? 1 = some tok ∧ 64 ≤ tok.length)

/-- The state after white plays (6,4)→(4,4) from the initial position at
`now = 0`, for the C6 witness. -/
def c6g : GameState :=
  { board :=
      [[some 'r', some 'n', some 'b', some 'q', some 'k', some 'b', some 'n', some 'r'],
       [some 'p', some 'p', some 'p', some 'p', some 'p', some 'p', some 'p', some 'p'],
       [none, none, none, none, none, none, none, none],
       [none, none, none, none, none, none, none, none],
       [none, none, none, none, some 'P', none, none, none],
       [none, none, none, none, none, none, none, none],
       [some 'P', some 'P', some 'P', some 'P', none, some 'P', some 'P', some 'P'],
       [some 'R', some 'N', some 'B', some 'Q', some 'K', some 'B', some 'N', some 'R']],
    current_turn := "black",
    move_history := [⟨"e2 -> e4".toList, some 'P', (6, 4), (4, 4), none, "white", none⟩],
    captured_white := [], captured_black := [],
    valid_moves_cache := [], white_time := 600, black_time := 600,
    last_ts := 0, paused := false }

/-! ## Association-list (Python dict) lemmas -/

/-- `Except` bind on a success reduces. -/
theorem exc_bind_ok {ε α β : Type} (a : α) (f : α → Except ε β) :
    (Except.ok a >>= f) = f a := rfl

/-- `Except` bind on a failure short-circuits. -/
theorem exc_bind_error {ε α β : Type} (e : ε) (f : α → Except ε β) :
    ((Except.error e : Except ε α) >>= f) = .error e := rfl

/-- Looking up the key just inserted finds the inserted value. -/
theorem lookupAssoc_insert_self {β : Type} (xs : List ((Int × Int) × β)) (k : Int × Int) (v : β) :
    lookupAssoc (insertAssoc xs k v) k = some v := by
  induction xs with
  | nil => simp [insertAssoc, lookupAssoc]
  | cons e rest ih =>
    obtain ⟨k', v'⟩ := e
    by_cases h : k' = k
    · simp [insertAssoc, lookupAssoc, h]
    · simp [insertAssoc, lookupAssoc, h, ih]

/-- Inserting an absent key appends the pair at the end. -/
theorem insertAssoc_of_none {β : Type} (xs : List ((Int × Int) × β)) (k : Int × Int) (v : β)
    (h : lookupAssoc xs k = none) : insertAssoc xs k v = xs ++ [(k, v)] := by
  induction xs with
  | nil => rfl
  | cons e rest ih =>
    obtain ⟨k', v'⟩ := e
    by_cases hk : k' = k
    · simp [lookupAssoc, hk] at h
    · simp only [lookupAssoc, if_neg hk] at h
      simp [insertAssoc, if_neg hk, ih h]

/-- Lookup passes over a prefix in which the key is absent. -/
theorem lookupAssoc_append_of_none {β : Type} (xs ys : List ((Int × Int) × β)) (k : Int × Int)
    (h : lookupAssoc xs k = none) : lookupAssoc (xs ++ ys) k = lookupAssoc ys k := by
  induction xs with
  | nil => rfl
  | cons e rest ih =>
    obtain ⟨k', v'⟩ := e
    by_cases hk : k' = k
    · simp [lookupAssoc, hk] at h
    · simp only [lookupAssoc, if_neg hk] at h
      simp [lookupAssoc, if_neg hk, ih h]

/-! ## Python indexing lemmas -/

/-- `pyIdx` succeeds exactly on Python-valid indices. -/
theorem pyIdx_total {α : Type} (xs : List α) (i : Int)
    (h1 : -(xs.length : Int) ≤ i) (h2 : i < xs.length) :
    ∃ a, pyIdx xs i = .ok a ∧ a ∈ xs := by
  unfold pyIdx
  set j : Int := if i < 0 then i + xs.length else i with hj
  have hj0 : 0 ≤ j := by rw [hj]; split <;> omega
  have hjl : j < xs.length := by rw [hj]; split <;> omega
  have hlt : j.toNat < xs.length := by omega
  refine ⟨xs.get ⟨j.toNat, hlt⟩, ?_, xs.get_mem _ _⟩
  rw [if_pos hj0, List.get?_eq_get hlt]

/-- `pyIdx` on a nonnegative in-range index is plain list indexing. -/
theorem pyIdx_nonneg (xs : List α) (i : Int) (h0 : 0 ≤ i) (h1 : i < xs.length) (a : α)
    (h : xs.get? i.toNat = some a) : pyIdx xs i = .ok a := by
  unfold pyIdx
  have : (if i < 0 then i + (xs.length : Int) else i) = i := by split <;> omega
  rw [this, if_pos h0, h]

/-- `pySet` succeeds on Python-valid indices, preserving length, and every
element of the result is an old element or the new value. -/
theorem pySet_total {α : Type} (xs : List α) (i : Int) (a : α)
    (h1 : -(xs.length : Int) ≤ i) (h2 : i < xs.length) :
    ∃ ys, pySet xs i a = .ok ys ∧ ys.length = xs.length ∧
      (∀ x ∈ ys, x ∈ xs ∨ x = a) := by
  unfold pySet
  set j : Int := if i < 0 then i + xs.length else i with hj
  have hj0 : 0 ≤ j := by rw [hj]; split <;> omega
  have hjl : j < xs.length := by rw [hj]; split <;> omega
  refine ⟨xs.set j.toNat a, ?_, by simp, ?_⟩
  · rw [if_pos hj0, if_pos hjl]
  · intro x hx
    exact List.mem_or_eq_of_mem_set hx

/-- `boardGet` succeeds on a well-formed board at Python-valid coordinates. -/
theorem boardGet_total (b : Board) (r c : Int) (hWF : WFBoard b)
    (h1 : -8 ≤ r) (h2 : r < 8) (h3 : -8 ≤ c) (h4 : c < 8) :
    ∃ cell, boardGet b r c = .ok cell := by
  obtain ⟨hlen, hrows⟩ := hWF
  obtain ⟨row, hrow, hmem⟩ := pyIdx_total b r (by omega) (by omega)
  have hrl : row.length = 8 := hrows row hmem
  obtain ⟨cell, hcell, _⟩ := pyIdx_total row c (by omega) (by omega)
  exact ⟨cell, by unfold boardGet; rw [hrow]; simpa using hcell⟩

/-- `boardSet` succeeds on a well-formed board at Python-valid coordinates
and preserves well-formedness. -/
theorem boardSet_total (b : Board) (r c : Int) (v : Cell) (hWF : WFBoard b)
    (h1 : -8 ≤ r) (h2 : r < 8) (h3 : -8 ≤ c) (h4 : c < 8) :
    ∃ b', boardSet b r c v = .ok b' ∧ WFBoard b' := by
  obtain ⟨hlen, hrows⟩ := hWF
  obtain ⟨row, hrow, hmem⟩ := pyIdx_total b r (by omega) (by omega)
  have hrl : row.length = 8 := hrows row hmem
  obtain ⟨row', hrow', hrl', hmem'⟩ := pySet_total row c v (by omega) (by omega)
  obtain ⟨b', hb', hbl', hbmem'⟩ := pySet_total b r row' (by omega) (by omega)
  refine ⟨b', ?_, by rw [hbl']; exact hlen, ?_⟩
  · unfold boardSet
    rw [hrow]
    rw [exc_bind_ok]
    rw [hrow']
    simpa using hb'
  · intro rw2 hrw2
    rcases hbmem' rw2 hrw2 with h | h
    · exact hrows rw2 h
    · rw [h, hrl']; exact hrl

/-! ## Decimal string round-trip -/

/-- `digitToChar` always yields a decimal digit character. -/
theorem digitToChar_mem (d : Nat) :
    digitToChar d ∈ ['0', '1', '2', '3', '4', '5', '6', '7', '8', '9'] := by
  unfold digitToChar
  by_cases h : d < 10
  · interval_cases d <;> decide
  · rw [List.getD_eq_default]
    · decide
    · simpa using Nat.le_of_not_lt h

/-- Decoding a digit character recovers the digit. -/
theorem charToDigit_digitToChar (d : Nat) (h : d < 10) :
    charToDigit (digitToChar d) = some d := by
  interval_cases d <;> decide

/-- `natCharsAux` of zero is empty for any fuel. -/
theorem natCharsAux_zero (f : Nat) : natCharsAux f 0 = [] := by
  cases f <;> simp [natCharsAux]

/-- With enough fuel, `natCharsAux` renders the base-10 digits, most
significant first. -/
theorem natCharsAux_eq (f : Nat) : ∀ n, 0 < n → n ≤ f →
    natCharsAux f n = (Nat.digits 10 n).reverse.map digitToChar := by
  induction f with
  | zero => intro n h1 h2; omega
  | succ f ih =>
    intro n h1 h2
    rw [natCharsAux, if_neg (by omega)]
    rw [Nat.digits_def' (by norm_num : (1 : ℕ) < 10) h1]
    simp only [List.reverse_cons, List.map_append, List.map_cons, List.map_nil]
    congr 1
    by_cases h : n / 10 = 0
    · rw [h, natCharsAux_zero]
      simp
    · exact ih (n / 10) (Nat.pos_of_ne_zero h)
        (by have := Nat.div_lt_self h1 (by norm_num : 1 < 10); omega)

/-- Folding the parser over rendered digits computes the positional value. -/
theorem foldl_digits (L : List Nat) (a : Nat) (hL : ∀ d ∈ L, d < 10) :
    List.foldl natParseStep (some a) (L.reverse.map digitToChar) =
      some (a * 10 ^ L.length + Nat.ofDigits 10 L) := by
  induction L generalizing a with
  | nil => simp
  | cons d ds ih =>
    simp only [List.reverse_cons, List.map_append, List.map_cons, List.map_nil,
      List.foldl_append, List.foldl_cons, List.foldl_nil]
    rw [ih a (fun x hx => hL x (List.mem_cons_of_mem d hx))]
    show natParseStep _ _ = _
    unfold natParseStep
    rw [charToDigit_digitToChar d (hL d (List.mem_cons_self d ds))]
    simp only [List.length_cons, Nat.ofDigits_cons]
    congr 1
    ring

/-- Every character of `natToChars` is a digit character. -/
theorem natToChars_chars (n : Nat) : ∀ c ∈ natToChars n, ∃ d, c = digitToChar d := by
  intro c hc
  unfold natToChars at hc
  split at hc
  · simp at hc
    exact ⟨0, hc⟩
  · by_cases h : 0 < n
    · rw [natCharsAux_eq n n h le_rfl] at hc
      simp only [List.mem_map, List.mem_reverse] at hc
      obtain ⟨d, _, hd⟩ := hc
      exact ⟨d, hd.symm⟩
    · omega

/-- `natToChars` is never empty. -/
theorem natToChars_ne_nil (n : Nat) : natToChars n ≠ [] := by
  unfold natToChars
  split
  · simp
  · rename_i h
    rw [natCharsAux_eq n n (Nat.pos_of_ne_zero h) le_rfl]
    simp [Nat.digits_ne_nil_iff_ne_zero.mpr h]

/-- Parsing back the rendered natural recovers it. -/
theorem charsToNat_natToChars (n : Nat) : charsToNat (natToChars n) = some n := by
  by_cases h : n = 0
  · subst h; decide
  · have h1 : 0 < n := Nat.pos_of_ne_zero h
    rw [charsToNat, if_neg (natToChars_ne_nil n)]
    rw [natToChars, if_neg h, natCharsAux_eq n n h1 le_rfl]
    rw [foldl_digits _ 0 (fun d hd => Nat.digits_lt_base (by norm_num) hd)]
    simp [Nat.ofDigits_digits]

/-- Digit characters are not signs or separators. -/
theorem natToChars_not_special (n : Nat) :
    ∀ c ∈ natToChars n, c ≠ '-' ∧ c ≠ '+' ∧ c ≠ ',' := by
  intro c hc
  obtain ⟨d, hd⟩ := natToChars_chars n c hc
  subst hd
  have hall : ∀ x ∈ (['0', '1', '2', '3', '4', '5', '6', '7', '8', '9'] : List Char),
      x ≠ '-' ∧ x ≠ '+' ∧ x ≠ ',' := by decide
  exact hall _ (digitToChar_mem d)

/-- Parsing back a rendered integer recovers it (`int(str(i)) == i`). -/
theorem charsToInt_intToChars (i : Int) : charsToInt (intToChars i) = some i := by
  unfold intToChars
  split
  · rename_i h
    show charsToInt ('-' :: natToChars i.natAbs) = some i
    rw [charsToInt, if_pos rfl, charsToNat_natToChars]
    have hv : -((i.natAbs : Int)) = i := by omega
    exact congrArg some hv
  · rename_i h
    cases hcs : natToChars i.natAbs with
    | nil => exact absurd hcs (natToChars_ne_nil _)
    | cons c rest =>
      have hc := natToChars_not_special i.natAbs c (by rw [hcs]; exact List.mem_cons_self c rest)
      rw [charsToInt, if_neg hc.1, if_neg hc.2.1, ← hcs, charsToNat_natToChars]
      have hv : ((i.natAbs : Int)) = i := by omega
      exact congrArg some hv

/-- `','` does not occur in a rendered integer. -/
theorem comma_not_mem_intToChars (i : Int) : ',' ∉ intToChars i := by
  unfold intToChars
  split
  · intro hmem
    rcases List.mem_cons.mp hmem with h | h
    · exact absurd h.symm (by decide)
    · exact (natToChars_not_special _ _ h).2.2 rfl
  · intro hmem
    exact (natToChars_not_special _ _ hmem).2.2 rfl

/-- Splitting a comma-free string yields one token. -/
theorem splitOnComma_no (b : List Char) (hb : ',' ∉ b) : splitOnComma b = [b] := by
  induction b with
  | nil => rfl
  | cons c rest ih =>
    have hc : ¬ c = ',' := fun h => hb (by rw [h]; exact List.mem_cons_self ',' rest)
    rw [splitOnComma, if_neg hc, ih (fun h => hb (List.mem_cons_of_mem c h))]

/-- Splitting around the separating comma isolates the first token. -/
theorem splitOnComma_append (a b : List Char) (ha : ',' ∉ a) :
    splitOnComma (a ++ ',' :: b) = a :: splitOnComma b := by
  induction a with
  | nil => simp [splitOnComma]
  | cons c rest ih =>
    have hc : ¬ c = ',' := fun h => ha (by rw [h]; exact List.mem_cons_self ',' rest)
    rw [List.cons_append, splitOnComma, if_neg hc,
      ih (fun h => ha (List.mem_cons_of_mem c h))]

/-- Decoding an encoded cache key recovers the coordinate pair. -/
theorem decodeKey_encodeKey (k : Int × Int) : decodeKey (encodeKey k) = .ok k := by
  obtain ⟨r, c⟩ := k
  unfold decodeKey encodeKey
  rw [splitOnComma_append _ _ (comma_not_mem_intToChars r),
    splitOnComma_no _ (comma_not_mem_intToChars c)]
  simp [charsToInt_intToChars]

/-- Rebuilding an encoded cache with no-duplicate keys restores it in order. -/
theorem decodeCache_roundtrip :
    ∀ (xs acc : List ((Int × Int) × List MoveDesc)),
      (∀ k ∈ xs.map Prod.fst, lookupAssoc acc k = none) →
      (xs.map Prod.fst).Nodup →
      decodeCache (xs.map (fun e => (encodeKey e.1, e.2))) acc = .ok (acc ++ xs) := by
  intro xs
  induction xs with
  | nil => intro acc _ _; simp [decodeCache]
  | cons e rest ih =>
    intro acc hnone hnd
    obtain ⟨k, v⟩ := e
    simp only [List.map_cons]
    rw [decodeCache, decodeKey_encodeKey, exc_bind_ok]
    rw [insertAssoc_of_none acc k v (hnone k (by simp))]
    rw [ih (acc ++ [(k, v)]) ?hn ?hd]
    · simp
    case hn =>
      intro k' hk'
      have h1 : lookupAssoc acc k' = none := hnone k' (by simp [hk'])
      rw [lookupAssoc_append_of_none _ _ _ h1]
      have hne : k ≠ k' := by
        simp only [List.map_cons, List.nodup_cons] at hnd
        intro h
        exact hnd.1 (h ▸ hk')
      simp [lookupAssoc, hne]
    case hd =>
      simp only [List.map_cons, List.nodup_cons] at hnd
      exact hnd.2

/-- Claim C3: for every game state whose cache keys are distinct (as they are
in any real Python dict), `from_dict (to_dict g)` restores the state
field-for-field, each cache key surviving the round trip through its
`"row,col"` string form. -/
theorem claim_C3_roundtrip (g : GameState)
    (h : (g.valid_moves_cache.map Prod.fst).Nodup) :
    from_dict (to_dict g) = .ok g := by
  unfold from_dict to_dict
  simp only
  rw [decodeCache_roundtrip g.valid_moves_cache [] (fun k _ => rfl) h, exc_bind_ok]
  rw [List.nil_append]

/-- Witness for C3 at a concrete snapshot. -/
theorem claim_C3_witness : from_dict (to_dict c3g) = .ok c3g :=
  claim_C3_roundtrip c3g (by simp [c3g])

/-! ## Shape of `make_move` results -/

/-- `update_clock` touches only the two counters and the timestamp. -/
theorem update_clock_fields (now : Int) (g : GameState) :
    (update_clock now g).board = g.board ∧
    (update_clock now g).current_turn = g.current_turn ∧
    (update_clock now g).move_history = g.move_history ∧
    (update_clock now g).captured_white = g.captured_white ∧
    (update_clock now g).captured_black = g.captured_black ∧
    (update_clock now g).valid_moves_cache = g.valid_moves_cache ∧
    (update_clock now g).paused = g.paused := by
  simp only [update_clock]
  split_ifs <;> simp

/-- A successful `make_move` run factors into its mutation phase and its
pure turn-ending phase. -/
theorem make_move_ok (engine : List Char → Option (List Char)) (now : Int)
    (g : GameState) (fr fc tr tc : Int) (promo : Option (List Char))
    (r : Bool × List Char × Cell × GameState)
    (h : make_move engine now g fr fc tr tc promo = .ok r) :
    ∃ m, mm_mutate engine g fr fc tr tc promo = .ok m ∧ r = mm_finish now g m := by
  unfold make_move at h
  cases hm : mm_mutate engine g fr fc tr tc promo with
  | error e => rw [hm, exc_bind_error] at h; exact absurd h (by simp)
  | ok m =>
    rw [hm, exc_bind_ok] at h
    injection h with h2
    exact ⟨m, rfl, h2.symm⟩

/-- What the turn-ending phase guarantees about its output state: board from
the mutation, flipped turn, appended history, empty cache, updated captured
lists, and the success/time-out dichotomy. -/
theorem mm_finish_spec (now : Int) (g : GameState) (m : MutRes) (succ : Bool)
    (msg : List Char) (cap : Cell) (g' : GameState)
    (h : mm_finish now g m = (succ, msg, cap, g')) :
    g'.board = m.board ∧
    g'.current_turn = flipTurn g.current_turn ∧
    g'.move_history = g.move_history ++ [m.entry] ∧
    g'.valid_moves_cache = [] ∧
    g'.captured_white = m.cw ∧
    g'.captured_black = m.cb ∧
    ((succ = true ∧ msg = m.nota ∧ cap = m.captured) ∨
     (succ = false ∧ cap = none ∧
       ((msg = wMsg ∧ g'.white_time = 0) ∨ (msg = bMsg ∧ g'.black_time = 0)))) := by
  unfold mm_finish at h
  dsimp only at h
  obtain ⟨hb, ht, hh, hcw, hcb, hvc, hp⟩ := update_clock_fields now
    ({ board := m.board, current_turn := flipTurn g.current_turn,
       move_history := g.move_history ++ [m.entry],
       captured_white := m.cw, captured_black := m.cb,
       valid_moves_cache := [], white_time := g.white_time,
       black_time := g.black_time, last_ts := g.last_ts, paused := g.paused } : GameState)
  split_ifs at h with h1 h2
  · simp only [Prod.mk.injEq] at h
    obtain ⟨hs, hm2, hc, hg⟩ := h
    subst hs; subst hm2; subst hc; subst hg
    refine ⟨hb, ht, hh, hvc, hcw, hcb, Or.inr ⟨rfl, rfl, Or.inl ⟨rfl, h1⟩⟩⟩
  · simp only [Prod.mk.injEq] at h
    obtain ⟨hs, hm2, hc, hg⟩ := h
    subst hs; subst hm2; subst hc; subst hg
    refine ⟨hb, ht, hh, hvc, hcw, hcb, Or.inr ⟨rfl, rfl, Or.inr ⟨rfl, h2⟩⟩⟩
  · simp only [Prod.mk.injEq] at h
    obtain ⟨hs, hm2, hc, hg⟩ := h
    subst hs; subst hm2; subst hc; subst hg
    exact ⟨hb, ht, hh, hvc, hcw, hcb, Or.inl ⟨rfl, rfl, rfl⟩⟩

/-- Claim C6: after every successful `make_move`, the move cache of the
resulting state is empty — all entries are discarded, not only those of the
squares involved in the move. -/
theorem claim_C6_cache_cleared (engine : List Char → Option (List Char)) (now : Int)
    (g : GameState) (fr fc tr tc : Int) (promo : Option (List Char))
    (msg : List Char) (cap : Cell) (g' : GameState)
    (h : make_move engine now g fr fc tr tc promo = .ok (true, msg, cap, g')) :
    g'.valid_moves_cache = [] := by
  obtain ⟨m, hm, hr⟩ := make_move_ok engine now g fr fc tr tc promo _ h
  exact (mm_finish_spec now g m true msg cap g' hr.symm).2.2.2.1

/-- Witness for C6: the concrete move e2→e4 succeeds and leaves an empty
cache. -/
theorem claim_C6_witness : c6g.valid_moves_cache = [] :=
  claim_C6_cache_cleared engNone 0 (initGame 0) 6 4 4 4 none
    ("e2 -> e4".toList) none c6g (by decide)

/-- Claim C5 (amended): a `make_move` that reports clock exhaustion has
already applied the move to the in-memory state — history appended, turn
flipped, exhausted counter exactly 0 — and the response is built from that
mutated state, but the endpoint does not persist it: the session keeps the
pre-move snapshot. -/
theorem claim_C5_timeout (engine : List Char → Option (List Char)) (now : Int)
    (S : GameState) (fr fc tr tc : Int) (promo : Option (List Char))
    (msg : List Char) (cap : Cell) (g' : GameState)
    (h : make_move engine now S fr fc tr tc promo = .ok (false, msg, cap, g')) :
    g'.move_history.length = S.move_history.length + 1 ∧
    g'.current_turn = flipTurn S.current_turn ∧
    g'.valid_moves_cache = [] ∧
    cap = none ∧
    ((msg = wMsg ∧ g'.white_time = 0) ∨ (msg = bMsg ∧ g'.black_time = 0)) ∧
    view_make_move engine now (some S) fr fc tr tc promo =
      .ok (⟨false, msg, cap, g'.board, g'.current_turn, g'.white_time,
        g'.black_time, g'.move_history, g'.captured_white, g'.captured_black⟩,
        some S) := by
  obtain ⟨m, hm, hr⟩ := make_move_ok engine now S fr fc tr tc promo _ h
  have hs := mm_finish_spec now S m false msg cap g' hr.symm
  refine ⟨?_, hs.2.1, hs.2.2.2.1, ?_, ?_, ?_⟩
  · rw [hs.2.2.1]; simp
  · rcases hs.2.2.2.2.2.2 with ⟨hft, _⟩ | ⟨_, hc, _⟩
    · exact absurd hft (by simp)
    · exact hc
  · rcases hs.2.2.2.2.2.2 with ⟨hft, _⟩ | ⟨_, _, hd⟩
    · exact absurd hft (by simp)
    · exact hd
  · unfold view_make_move
    dsimp only
    rw [h, exc_bind_ok]
    rfl

/-- Counterexample to C5 as stated: the clock-exhausting move is reported
with the mutated in-memory state (history length 1), but the persisted
session is the untouched pre-move snapshot (history length 0) — the
mutation does not persist. -/
theorem claim_C5_counterexample :
    Except.map (fun r => (r.1.valid, r.1.message, r.1.move_history.length, r.2))
      (view_make_move engNone 5 (some c5S) 1 4 3 4 none) =
      .ok (false, wMsg, 1, some c5S) ∧
    c5S.move_history.length = 0 := by
  exact ⟨by decide, rfl⟩

/-- Witness for the amended C5 at the concrete scenario. -/
theorem claim_C5_witness : c5G.move_history.length = c5S.move_history.length + 1 :=
  (claim_C5_timeout engNone 5 c5S 1 4 3 4 none wMsg none c5G (by decide)).1

/-- Claim C2 is violated by the code: `make_move` flips the turn first and
only then calls `update_clock`, so the 5 elapsed seconds of white's move are
deducted from black's counter (600 → 595) while white's stays at 600. -/
theorem claim_C2_eval :
    Except.map (fun r => (r.1, r.2.2.2.current_turn, r.2.2.2.white_time, r.2.2.2.black_time))
      (make_move engNone 5 (initGame 0) 6 4 4 4 none) =
      .ok (true, "black", 600, 595) := by decide

/-- Claim C1 is violated by the code: from the initial position the knight
move (7,1)→(5,1) has a destination outside the reported legal list (empty
here), `validate_move` itself calls it illegal, yet `make_move` — which the
endpoint invokes without consulting `validate_move` — applies it, flips the
turn, moves the knight, and the endpoint persists the mutated session. -/
theorem claim_C1_eval :
    view_valid_moves engNone (some (initGame 0)) 7 1 = .ok [] ∧
    Except.map (fun r => r.1) (validate_move engNone (initGame 0) 7 1 5 1) =
      .ok (false, "Illegal move.".toList) ∧
    Except.map (fun r => (r.1, r.2.2.2.current_turn))
      (make_move engNone 0 (initGame 0) 7 1 5 1 none) = .ok (true, "black") ∧
    Except.map (fun r => boardGet r.2.2.2.board 5 1)
      (make_move engNone 0 (initGame 0) 7 1 5 1 none) = .ok (.ok (some 'N')) ∧
    Except.map (fun r => (r.1.valid, r.2 == some (initGame 0)))
      (view_make_move engNone 0 (some (initGame 0)) 7 1 5 1 none) =
      .ok (true, false) := by
  refine ⟨by decide, by decide, by decide, by decide, by decide⟩

/-! ## Cache behaviour of `get_valid_moves` -/

/-- Claim C7: one `get_valid_moves` call makes at most one engine query,
does not touch board or turn, and leaves a state on which the same query is
answered from the cache — same result, same state, zero engine calls. -/
theorem claim_C7_memoized (engine : List Char → Option (List Char)) (g : GameState)
    (row col : Int) (mv : List MoveDesc) (g' : GameState) (n : Nat)
    (h : get_valid_moves engine g row col = .ok (mv, g', n)) :
    n ≤ 1 ∧ g'.board = g.board ∧ g'.current_turn = g.current_turn ∧
    get_valid_moves engine g' row col = .ok (mv, g', 0) := by
  unfold get_valid_moves at h ⊢
  cases hp : boardGet g.board row col with
  | error e => rw [hp, exc_bind_error] at h; exact absurd h (by simp)
  | ok piece =>
    rw [hp, exc_bind_ok] at h
    cases piece with
    | none =>
      simp only [Except.ok.injEq, Prod.mk.injEq] at h
      obtain ⟨h1, h2, h3⟩ := h
      subst h1; subst h2; subst h3
      rw [hp, exc_bind_ok]
      exact ⟨by omega, rfl, rfl, rfl⟩
    | some p =>
      simp only at h
      by_cases hcol : colorOf p = g.current_turn
      · rw [if_pos hcol] at h
        cases hl : lookupAssoc g.valid_moves_cache (row, col) with
        | some mv0 =>
          rw [hl] at h
          simp only [Except.ok.injEq, Prod.mk.injEq] at h
          obtain ⟨h1, h2, h3⟩ := h
          subst h1; subst h2; subst h3
          refine ⟨by omega, rfl, rfl, ?_⟩
          rw [hp, exc_bind_ok]
          simp only [if_pos hcol, hl]
        | none =>
          rw [hl] at h
          cases he : get_engine_moves engine g row col with
          | error e => rw [he, exc_bind_error] at h; exact absurd h (by simp)
          | ok mvE =>
            rw [he, exc_bind_ok] at h
            simp only [lookupAssoc_insert_self, Option.getD_some,
              Except.ok.injEq, Prod.mk.injEq] at h
            obtain ⟨h1, h2, h3⟩ := h
            subst h1; subst h2; subst h3
            refine ⟨by omega, rfl, rfl, ?_⟩
            rw [hp, exc_bind_ok]
            simp only [if_pos hcol, lookupAssoc_insert_self]
      · rw [if_neg hcol] at h
        simp only [Except.ok.injEq, Prod.mk.injEq] at h
        obtain ⟨h1, h2, h3⟩ := h
        subst h1; subst h2; subst h3
        refine ⟨by omega, rfl, rfl, ?_⟩
        rw [hp, exc_bind_ok]
        simp only [if_neg hcol]

/-- Witness for C7: the repeated query is answered from the cache with zero
engine calls. -/
theorem claim_C7_witness : get_valid_moves engNone c7g 6 4 = .ok ([], c7g, 0) :=
  (claim_C7_memoized engNone (initGame 0) 6 4 [] c7g 1 (by decide)).2.2.2

/-- Claim C8: `get_valid_moves` on an empty square, or on a square owned by
the side not on turn, returns the empty list, leaves the state unchanged,
and makes no engine call. -/
theorem claim_C8_gating (engine : List Char → Option (List Char)) (g : GameState)
    (row col : Int) (piece : Cell)
    (hp : boardGet g.board row col = .ok piece)
    (h : piece = none ∨ ∃ p, piece = some p ∧ colorOf p ≠ g.current_turn) :
    get_valid_moves engine g row col = .ok ([], g, 0) := by
  unfold get_valid_moves
  rw [hp, exc_bind_ok]
  rcases h with rfl | ⟨p, rfl, hc⟩
  · rfl
  · simp only [if_neg hc]

/-- Witness for C8: the empty square (4,4) and black's pawn (1,4) on white's
turn both yield the empty list with no engine call. -/
theorem claim_C8_witness :
    get_valid_moves engNone (initGame 0) 4 4 = .ok ([], initGame 0, 0) ∧
    get_valid_moves engNone (initGame 0) 1 4 = .ok ([], initGame 0, 0) :=
  ⟨claim_C8_gating engNone (initGame 0) 4 4 none (by decide) (Or.inl rfl),
   claim_C8_gating engNone (initGame 0) 1 4 (some 'p') (by decide)
     (Or.inr ⟨'p', rfl, by decide⟩)⟩

/-! ## Engine failure handling -/

/-- Counterexample to C4 as stated: a reply that carries the expected verb
but not the expected token shape is not turned into a no-result value — it
raises.  `"MOVES x"` makes `get_valid_moves` raise `ValueError`
(`int('x')`), and a bare `"PROMOTE"` reply makes `make_move` raise
`IndexError` (`resp.split()[1]`). -/
theorem claim_C4_counterexample :
    get_valid_moves (fun _ => some "MOVES x".toList) (initGame 0) 7 1 =
      .error .valueError ∧
    make_move (fun _ => some "PROMOTE".toList) 0 promoState 1 0 0 0 none =
      .error .indexError := by
  exact ⟨by decide, by decide⟩

/-- Claim C4 (amended): an absent engine result (`None` from `_call_engine`,
covering absent binary, timeout and process error) and a reply that does not
start with the expected verb are uniformly returned as no-result values — an
empty move list from the moves query, `None` from the promotion call —
without raising. -/
theorem claim_C4_no_result (engine : List Char → Option (List Char)) (g : GameState)
    (row col fr fc tr tc : Int) (ch : List Char) :
    (engine (movesCmd g row col) = none →
      get_engine_moves engine g row col = .ok []) ∧
    (∀ resp, engine (movesCmd g row col) = some resp →
      startsWithL resp "MOVES".toList = false →
      get_engine_moves engine g row col = .ok []) ∧
    (engine (promoteCmd g fr fc tr tc ch) = none →
      call_engine_promote engine g fr fc tr tc ch = .ok none) ∧
    (∀ resp, engine (promoteCmd g fr fc tr tc ch) = some resp →
      startsWithL resp "PROMOTE".toList = false →
      call_engine_promote engine g fr fc tr tc ch = .ok none) := by
  refine ⟨?_, ?_, ?_, ?_⟩
  · intro h
    unfold get_engine_moves
    rw [h]
  · intro resp h hs
    unfold get_engine_moves
    rw [h]
    dsimp only
    rw [hs]
    simp
  · intro h
    unfold call_engine_promote
    rw [h]
  · intro resp h hs
    unfold call_engine_promote
    rw [h]
    dsimp only
    rw [hs]
    simp

/-- Witness for the amended C4 with the engine absent. -/
theorem claim_C4_witness :
    get_engine_moves engNone (initGame 0) 7 1 = .ok [] ∧
    call_engine_promote engNone promoState 1 0 0 0 ['q'] = .ok none :=
  ⟨(claim_C4_no_result engNone (initGame 0) 7 1 1 0 0 0 ['q']).1 rfl,
   (claim_C4_no_result engNone promoState 7 1 1 0 0 0 ['q']).2.2.1 rfl⟩

/-! ## Promotion fallback -/

/-- `pyIdx` at a nonnegative index is determined by `get?` there. -/
theorem pyIdx_get {α : Type} (xs : List α) (i : Int) (h0 : 0 ≤ i)
    (hl : i.toNat < xs.length) :
    pyIdx xs i = .ok (xs.get ⟨i.toNat, hl⟩) := by
  unfold pyIdx
  have hj : (if i < 0 then i + (xs.length : Int) else i) = i := by split <;> omega
  rw [hj, if_pos h0, List.get?_eq_get hl]

/-- `pySet` at a nonnegative in-range index is plain `List.set`. -/
theorem pySet_eq {α : Type} (xs : List α) (i : Int) (a : α) (h0 : 0 ≤ i)
    (hl : i.toNat < xs.length) :
    pySet xs i a = .ok (xs.set i.toNat a) := by
  unfold pySet
  have hj : (if i < 0 then i + (xs.length : Int) else i) = i := by split <;> omega
  rw [hj, if_pos h0, if_pos (by omega)]

/-- Two lists of the same length agreeing at a nonnegative index give the
same `pyIdx` there. -/
theorem pyIdx_nonneg_eq {α : Type} (xs ys : List α) (i : Int) (h0 : 0 ≤ i)
    (hlen : xs.length = ys.length) (hget : xs.get? i.toNat = ys.get? i.toNat) :
    pyIdx xs i = pyIdx ys i := by
  unfold pyIdx
  have hx : (if i < 0 then i + (xs.length : Int) else i) = i := by split <;> omega
  have hy : (if i < 0 then i + (ys.length : Int) else i) = i := by split <;> omega
  dsimp only
  rw [hx, hy, hget]

/-- Full description of a successful in-range `boardSet`: the result is
well-formed and reads back the written value at the written square and the
old values elsewhere. -/
theorem boardSet_get (b : Board) (r c : Int) (v : Cell) (b' : Board) (hWF : WFBoard b)
    (hr0 : 0 ≤ r) (hr8 : r < 8) (hc0 : 0 ≤ c) (hc8 : c < 8)
    (hset : boardSet b r c v = .ok b') :
    WFBoard b' ∧
    (∀ r' c' : Int, 0 ≤ r' → r' < 8 → 0 ≤ c' → c' < 8 →
      boardGet b' r' c' = if r' = r ∧ c' = c then .ok v else boardGet b r' c') := by
  have hlen := hWF.1
  have hrt : r.toNat < b.length := by omega
  rw [boardSet, pyIdx_get b r hr0 hrt, exc_bind_ok] at hset
  have hrl : (b.get ⟨r.toNat, hrt⟩).length = 8 := hWF.2 _ (b.get_mem _ _)
  rw [pySet_eq _ c v hc0 (by omega), exc_bind_ok, pySet_eq b r _ hr0 hrt] at hset
  injection hset with hb'
  subst hb'
  constructor
  · constructor
    · simpa using hlen
    · intro rw2 hm
      rcases List.mem_or_eq_of_mem_set hm with hmem | heq
      · exact hWF.2 rw2 hmem
      · rw [heq]
        simpa using hrl
  · intro r' c' h1 h2 h3 h4
    by_cases hrr : r' = r
    · subst hrr
      have hq1 : (b.set r'.toNat ((b.get ⟨r'.toNat, hrt⟩).set c.toNat v)).get? r'.toNat =
          some ((b.get ⟨r'.toNat, hrt⟩).set c.toNat v) :=
        List.get?_set_eq_of_lt _ (by omega)
      rw [boardGet, pyIdx_nonneg _ r' h1 (by simp only [List.length_set]; omega) _ hq1,
        exc_bind_ok]
      by_cases hcc : c' = c
      · subst hcc
        rw [if_pos ⟨rfl, rfl⟩]
        exact pyIdx_nonneg _ c' h3 (by simp only [List.length_set]; omega) v
          (List.get?_set_eq_of_lt _ (by omega))
      · rw [if_neg (by tauto)]
        rw [boardGet, pyIdx_get b r' hr0 hrt, exc_bind_ok]
        exact pyIdx_nonneg_eq _ _ c' h3 (by simp)
          (List.get?_set_ne _ _ (by omega))
    · rw [if_neg (by tauto)]
      rw [boardGet,
        pyIdx_nonneg_eq _ b r' h1 (by simp) (List.get?_set_ne _ _ (by omega))]
      rfl

/-- The validated promotion choice is always one of q/r/b/n. -/
theorem promoChoiceChar_mem (promo : Option (List Char)) :
    promoChoiceChar promo = 'q' ∨ promoChoiceChar promo = 'r' ∨
    promoChoiceChar promo = 'b' ∨ promoChoiceChar promo = 'n' := by
  unfold promoChoiceChar
  dsimp only
  split_ifs <;> simp

/-- Behaviour of `_promote`: the result has the pawn's case, is a q/r/b/n
letter up to case, and an unspecified choice yields a queen. -/
theorem promoteChar_spec (p : Char) (promo : Option (List Char)) :
    (promoteChar p promo).isUpper = p.isUpper ∧
    (promoteChar p promo).toLower ∈ ['q', 'r', 'b', 'n'] ∧
    (promo = none → promoteChar p promo = if p.isUpper then 'Q' else 'q') := by
  refine ⟨?_, ?_, ?_⟩
  · unfold promoteChar
    cases hu : p.isUpper <;>
      rcases promoChoiceChar_mem promo with h | h | h | h <;>
      simp only [hu, if_true, if_false, h] <;> decide
  · unfold promoteChar
    cases hu : p.isUpper <;>
      rcases promoChoiceChar_mem promo with h | h | h | h <;>
      simp only [hu, if_true, if_false, h] <;> decide
  · intro hn
    subst hn
    unfold promoteChar
    have hq : promoChoiceChar none = 'q' := rfl
    rw [hq]
    cases hu : p.isUpper <;> simp [hu]

/-- With no engine reply, the promotion branch of the board update takes the
local fallback path. -/
theorem mm_board_update_fallback (engine : List Char → Option (List Char))
    (g : GameState) (fr fc tr tc : Int) (promo : Option (List Char)) (p : Char)
    (hE : engine (promoteCmd g fr fc tr tc (choiceOf promo)) = none)
    (hpr : is_promo_piece (some p) tr = true) :
    mm_board_update engine g fr fc tr tc promo (some p) = (do
      let b1 ← boardSet g.board tr tc (some (promoteChar p promo))
      let b ← boardSet b1 fr fc none
      Except.ok (b, true)) := by
  unfold mm_board_update
  dsimp only
  rw [hpr, if_pos rfl]
  unfold call_engine_promote
  rw [hE]
  rfl

/-- Claim C9: with the engine unreachable, a pawn move to the opponent's
back rank goes through the local fallback: the destination holds the
promoted piece — the requested kind, or a queen when unspecified or not one
of q/r/b/n — with the pawn's case, and the source square becomes empty. -/
theorem claim_C9_promotion_fallback (engine : List Char → Option (List Char))
    (now : Int) (g : GameState) (fr fc tr tc : Int) (promo : Option (List Char))
    (p : Char) (succ : Bool) (msg : List Char) (cap : Cell) (g' : GameState)
    (hE : ∀ cmd, engine cmd = none)
    (hWF : WFBoard g.board)
    (hfr0 : 0 ≤ fr) (hfr8 : fr < 8) (hfc0 : 0 ≤ fc) (hfc8 : fc < 8)
    (htr0 : 0 ≤ tr) (htr8 : tr < 8) (htc0 : 0 ≤ tc) (htc8 : tc < 8)
    (hne : ¬(fr = tr ∧ fc = tc))
    (hpiece : boardGet g.board fr fc = .ok (some p))
    (hpr : is_promo_piece (some p) tr = true)
    (h : make_move engine now g fr fc tr tc promo = .ok (succ, msg, cap, g')) :
    boardGet g'.board tr tc = .ok (some (promoteChar p promo)) ∧
    boardGet g'.board fr fc = .ok none ∧
    (promoteChar p promo).isUpper = p.isUpper ∧
    (promoteChar p promo).toLower ∈ ['q', 'r', 'b', 'n'] ∧
    (promo = none → promoteChar p promo = if p.isUpper then 'Q' else 'q') := by
  obtain ⟨m, hm, hr⟩ := make_move_ok engine now g fr fc tr tc promo _ h
  have hb' : g'.board = m.board := (mm_finish_spec now g m succ msg cap g' hr.symm).1
  unfold mm_mutate at hm
  rw [hpiece, exc_bind_ok] at hm
  cases hcap : boardGet g.board tr tc with
  | error e => rw [hcap, exc_bind_error] at hm; exact absurd hm (by simp)
  | ok capd =>
    rw [hcap, exc_bind_ok] at hm
    rw [mm_board_update_fallback engine g fr fc tr tc promo p (hE _) hpr] at hm
    obtain ⟨b1, hb1, hWF1⟩ :=
      boardSet_total g.board tr tc (some (promoteChar p promo)) hWF (by omega) htr8 (by omega) htc8
    rw [hb1, exc_bind_ok] at hm
    obtain ⟨b2, hb2, hWF2⟩ := boardSet_total b1 fr fc none hWF1 (by omega) hfr8 (by omega) hfc8
    rw [hb2, exc_bind_ok, exc_bind_ok] at hm
    have hspec1 := (boardSet_get g.board tr tc (some (promoteChar p promo)) b1 hWF
      (by omega) htr8 (by omega) htc8 hb1).2
    have hspec2 := (boardSet_get b1 fr fc none b2 hWF1
      (by omega) hfr8 (by omega) hfc8 hb2).2
    have hmb : m.board = b2 := by
      cases hcw : mm_captured g capd with
      | error e => rw [hcw, exc_bind_error] at hm; exact absurd hm (by simp)
      | ok cwcb =>
        rw [hcw, exc_bind_ok] at hm
        cases hn1 : mkNota fr fc tr tc with
        | error e => rw [hn1, exc_bind_error] at hm; exact absurd hm (by simp)
        | ok nota1 =>
          rw [hn1, exc_bind_ok] at hm
          cases hn2 : mm_nota2 b2 true tr tc nota1 with
          | error e => rw [hn2, exc_bind_error] at hm; exact absurd hm (by simp)
          | ok nota2 =>
            rw [hn2, exc_bind_ok] at hm
            cases hn3 : mm_ptc b2 true tr tc with
            | error e => rw [hn3, exc_bind_error] at hm; exact absurd hm (by simp)
            | ok ptc =>
              rw [hn3, exc_bind_ok] at hm
              injection hm with hm2
              rw [← hm2]
    have hget2tr : boardGet b2 tr tc = .ok (some (promoteChar p promo)) := by
      rw [hspec2 tr tc (by omega) htr8 (by omega) htc8,
        if_neg (fun hc => hne ⟨hc.1.symm, hc.2.symm⟩),
        hspec1 tr tc (by omega) htr8 (by omega) htc8, if_pos ⟨rfl, rfl⟩]
    have hget2fr : boardGet b2 fr fc = .ok none := by
      rw [hspec2 fr fc (by omega) hfr8 (by omega) hfc8, if_pos ⟨rfl, rfl⟩]
    obtain ⟨hs1, hs2, hs3⟩ := promoteChar_spec p promo
    rw [hb', hmb]
    exact ⟨hget2tr, hget2fr, hs1, hs2, hs3⟩

/-- Witness for C9 at the concrete fallback promotion. -/
theorem claim_C9_witness :
    boardGet c9G.board 0 0 = .ok (some (promoteChar 'P' (some "r".toList))) :=
  (claim_C9_promotion_fallback engNone 0 promoState 1 0 0 0 (some "r".toList)
    'P' true ("a7 -> a8=R".toList) none c9G (fun _ => rfl)
    (by constructor <;> decide)
    (by decide) (by decide) (by decide) (by decide) (by decide) (by decide)
    (by decide) (by decide) (by decide) (by decide) (by decide) (by decide)).1

/-! ## Totality under well-formed engine replies -/

/-- The absent engine is trivially well-behaved. -/
theorem engNone_ok : EngineOK engNone := by
  intro cmd resp h
  exact absurd h (by simp [engNone])

/-- `_get_engine_moves` cannot raise under a well-behaved engine. -/
theorem get_engine_moves_total (engine : List Char → Option (List Char))
    (g : GameState) (row col : Int) (hE : EngineOK engine) :
    ∃ ms, get_engine_moves engine g row col = .ok ms := by
  unfold get_engine_moves
  cases hc : engine (movesCmd g row col) with
  | none => exact ⟨[], rfl⟩
  | some resp =>
    dsimp only
    cases hs : startsWithL resp "MOVES".toList with
    | false => exact ⟨[], by simp⟩
    | true =>
      obtain ⟨ms, hms⟩ := (hE _ _ hc).1 hs
      exact ⟨ms, by simpa using hms⟩

/-- `_call_engine_promote` cannot raise under a well-behaved engine, and any
returned board token is long enough to parse. -/
theorem call_engine_promote_total (engine : List Char → Option (List Char))
    (g : GameState) (fr fc tr tc : Int) (ch : List Char) (hE : EngineOK engine) :
    ∃ ob, call_engine_promote engine g fr fc tr tc ch = .ok ob ∧
      (∀ tok, ob = some tok → 64 ≤ tok.length) := by
  unfold call_engine_promote
  cases hc : engine (promoteCmd g fr fc tr tc ch) with
  | none => exact ⟨none, rfl, by simp⟩
  | some resp =>
    dsimp only
    cases hs : startsWithL resp "PROMOTE".toList with
    | false =>
      exact ⟨none, by simp, by simp⟩
    | true =>
      obtain ⟨tok, htok, hlen⟩ := (hE _ _ hc).2 hs
      rw [if_pos rfl, htok]
      refine ⟨some tok, rfl, ?_⟩
      intro t ht
      injection ht with ht2
      rw [← ht2]
      exact hlen

/-- A 64-character (or longer) wire board always parses into a well-formed
8×8 board. -/
theorem parse_board64_total (cs : List Char) (h : 64 ≤ cs.length) :
    ∃ b, parse_board64 cs = .ok b ∧ WFBoard b := by
  refine ⟨_, by unfold parse_board64; rw [if_pos h], ?_⟩
  constructor
  · simp
  · intro row hrow
    simp only [List.mem_map, List.mem_range] at hrow
    obtain ⟨r, _, hr⟩ := hrow
    rw [← hr]
    simp

/-- The notation builder cannot raise for Python-valid column indices. -/
theorem mkNota_total (fr fc tr tc : Int) (h1 : -8 ≤ fc) (h2 : fc < 8)
    (h3 : -8 ≤ tc) (h4 : tc < 8) :
    ∃ nota, mkNota fr fc tr tc = .ok nota := by
  have hf : FILES.length = 8 := by decide
  obtain ⟨a, ha, _⟩ := pyIdx_total FILES fc (by rw [hf]; exact_mod_cast h1) (by rw [hf]; exact_mod_cast h2)
  obtain ⟨b, hb, _⟩ := pyIdx_total FILES tc (by rw [hf]; exact_mod_cast h3) (by rw [hf]; exact_mod_cast h4)
  exact ⟨_, by unfold mkNota; rw [ha, exc_bind_ok, hb, exc_bind_ok]⟩

/-- The board-update phase cannot raise under a well-behaved engine and
Python-valid coordinates, and it yields a well-formed board. -/
theorem mm_board_update_total (engine : List Char → Option (List Char))
    (g : GameState) (fr fc tr tc : Int) (promo : Option (List Char)) (piece : Cell)
    (hE : EngineOK engine) (hWF : WFBoard g.board)
    (hfr1 : -8 ≤ fr) (hfr2 : fr < 8) (hfc1 : -8 ≤ fc) (hfc2 : fc < 8)
    (htr1 : -8 ≤ tr) (htr2 : tr < 8) (htc1 : -8 ≤ tc) (htc2 : tc < 8) :
    ∃ bp, mm_board_update engine g fr fc tr tc promo piece = .ok bp ∧ WFBoard bp.1 := by
  cases piece with
  | none =>
    obtain ⟨b1, hb1, hWF1⟩ := boardSet_total g.board tr tc none hWF htr1 htr2 htc1 htc2
    obtain ⟨b2, hb2, hWF2⟩ := boardSet_total b1 fr fc none hWF1 hfr1 hfr2 hfc1 hfc2
    refine ⟨(b2, false), ?_, hWF2⟩
    unfold mm_board_update
    rw [hb1, exc_bind_ok, hb2, exc_bind_ok]
  | some p =>
    cases hpr : is_promo_piece (some p) tr with
    | false =>
      obtain ⟨b1, hb1, hWF1⟩ := boardSet_total g.board tr tc (some p) hWF htr1 htr2 htc1 htc2
      obtain ⟨b2, hb2, hWF2⟩ := boardSet_total b1 fr fc none hWF1 hfr1 hfr2 hfc1 hfc2
      refine ⟨(b2, false), ?_, hWF2⟩
      unfold mm_board_update
      dsimp only
      rw [hpr]
      simp only [Bool.false_eq_true, if_false]
      rw [hb1, exc_bind_ok, hb2, exc_bind_ok]
    | true =>
      obtain ⟨ob, hob, hlen⟩ :=
        call_engine_promote_total engine g fr fc tr tc (choiceOf promo) hE
      cases ob with
      | some tok =>
        obtain ⟨bE, hbE, hWFE⟩ := parse_board64_total tok (hlen tok rfl)
        refine ⟨(bE, true), ?_, hWFE⟩
        unfold mm_board_update
        dsimp only
        rw [hpr, if_pos rfl, hob, exc_bind_ok]
        dsimp only
        rw [hbE, exc_bind_ok]
      | none =>
        obtain ⟨b1, hb1, hWF1⟩ :=
          boardSet_total g.board tr tc (some (promoteChar p promo)) hWF htr1 htr2 htc1 htc2
        obtain ⟨b2, hb2, hWF2⟩ := boardSet_total b1 fr fc none hWF1 hfr1 hfr2 hfc1 hfc2
        refine ⟨(b2, true), ?_, hWF2⟩
        unfold mm_board_update
        dsimp only
        rw [hpr, if_pos rfl, hob, exc_bind_ok]
        dsimp only
        rw [hb1, exc_bind_ok, hb2, exc_bind_ok]

/-- Capture recording cannot raise when the turn is white or black. -/
theorem mm_captured_total (g : GameState) (captured : Cell)
    (ht : g.current_turn = "white" ∨ g.current_turn = "black") :
    ∃ cw, mm_captured g captured = .ok cw := by
  unfold mm_captured
  cases captured with
  | none => exact ⟨_, rfl⟩
  | some c =>
    rcases ht with ht | ht
    · exact ⟨(g.captured_white ++ [c], g.captured_black), by simp [ht]⟩
    · exact ⟨(g.captured_white, g.captured_black ++ [c]), by simp [ht]⟩

/-- The notation suffix cannot raise on a well-formed board. -/
theorem mm_nota2_total (b2 : Board) (promoted : Bool) (tr tc : Int) (nota1 : List Char)
    (hWF : WFBoard b2) (h1 : -8 ≤ tr) (h2 : tr < 8) (h3 : -8 ≤ tc) (h4 : tc < 8) :
    ∃ nota2, mm_nota2 b2 promoted tr tc nota1 = .ok nota2 := by
  unfold mm_nota2
  cases promoted with
  | false => exact ⟨nota1, by simp⟩
  | true =>
    obtain ⟨cell, hcell⟩ := boardGet_total b2 tr tc hWF h1 h2 h3 h4
    exact ⟨_, by rw [if_pos rfl, hcell, exc_bind_ok]⟩

/-- The `promoted_to` field cannot raise on a well-formed board. -/
theorem mm_ptc_total (b2 : Board) (promoted : Bool) (tr tc : Int)
    (hWF : WFBoard b2) (h1 : -8 ≤ tr) (h2 : tr < 8) (h3 : -8 ≤ tc) (h4 : tc < 8) :
    ∃ pt, mm_ptc b2 promoted tr tc = .ok pt := by
  unfold mm_ptc
  cases promoted with
  | false => exact ⟨none, by simp⟩
  | true =>
    obtain ⟨cell, hcell⟩ := boardGet_total b2 tr tc hWF h1 h2 h3 h4
    exact ⟨cell, by rw [if_pos rfl]; exact hcell⟩

/-- The whole mutation phase cannot raise under a well-behaved engine,
well-formed board and turn, and Python-valid coordinates. -/
theorem mm_mutate_total (engine : List Char → Option (List Char)) (g : GameState)
    (fr fc tr tc : Int) (promo : Option (List Char))
    (hE : EngineOK engine) (hWF : WFBoard g.board)
    (ht : g.current_turn = "white" ∨ g.current_turn = "black")
    (hfr1 : -8 ≤ fr) (hfr2 : fr < 8) (hfc1 : -8 ≤ fc) (hfc2 : fc < 8)
    (htr1 : -8 ≤ tr) (htr2 : tr < 8) (htc1 : -8 ≤ tc) (htc2 : tc < 8) :
    ∃ m, mm_mutate engine g fr fc tr tc promo = .ok m := by
  obtain ⟨piece, hpiece⟩ := boardGet_total g.board fr fc hWF hfr1 hfr2 hfc1 hfc2
  obtain ⟨capd, hcap⟩ := boardGet_total g.board tr tc hWF htr1 htr2 htc1 htc2
  obtain ⟨bp, hbp, hWFb⟩ := mm_board_update_total engine g fr fc tr tc promo piece
    hE hWF hfr1 hfr2 hfc1 hfc2 htr1 htr2 htc1 htc2
  obtain ⟨cw, hcw⟩ := mm_captured_total g capd ht
  obtain ⟨n1, hn1⟩ := mkNota_total fr fc tr tc hfc1 hfc2 htc1 htc2
  obtain ⟨n2, hn2⟩ := mm_nota2_total bp.1 bp.2 tr tc n1 hWFb htr1 htr2 htc1 htc2
  obtain ⟨pt, hpt⟩ := mm_ptc_total bp.1 bp.2 tr tc hWFb htr1 htr2 htc1 htc2
  have hall : mm_mutate engine g fr fc tr tc promo = .ok
      { board := bp.1, promoted := bp.2, captured := capd, nota := n2,
        entry := ⟨n2, piece, (fr, fc), (tr, tc), capd, g.current_turn, pt⟩,
        cw := cw.1, cb := cw.2 } := by
    unfold mm_mutate
    rw [hpiece, exc_bind_ok, hcap, exc_bind_ok, hbp, exc_bind_ok, hcw, exc_bind_ok,
      hn1, exc_bind_ok, hn2, exc_bind_ok, hpt, exc_bind_ok]
  exact ⟨_, hall⟩

/-- Claim C10 (amended): past the integer-parsing guard, for coordinates
within Python's index range (−8..7), a turn in {white, black} and a
well-behaved engine, neither `get_valid_moves` nor `make_move` raises. -/
theorem claim_C10_no_raise (engine : List Char → Option (List Char)) (now : Int)
    (g : GameState) (row col fr fc tr tc : Int) (promo : Option (List Char))
    (hE : EngineOK engine) (hWF : WFBoard g.board)
    (ht : g.current_turn = "white" ∨ g.current_turn = "black")
    (hrow1 : -8 ≤ row) (hrow2 : row < 8) (hcol1 : -8 ≤ col) (hcol2 : col < 8)
    (hfr1 : -8 ≤ fr) (hfr2 : fr < 8) (hfc1 : -8 ≤ fc) (hfc2 : fc < 8)
    (htr1 : -8 ≤ tr) (htr2 : tr < 8) (htc1 : -8 ≤ tc) (htc2 : tc < 8) :
    (get_valid_moves engine g row col).isOk = true ∧
    (make_move engine now g fr fc tr tc promo).isOk = true := by
  constructor
  · obtain ⟨piece, hpiece⟩ := boardGet_total g.board row col hWF hrow1 hrow2 hcol1 hcol2
    unfold get_valid_moves
    rw [hpiece, exc_bind_ok]
    cases piece with
    | none => rfl
    | some p =>
      dsimp only
      by_cases hco : colorOf p = g.current_turn
      · rw [if_pos hco]
        cases hl : lookupAssoc g.valid_moves_cache (row, col) with
        | some mv => rfl
        | none =>
          obtain ⟨ms, hms⟩ := get_engine_moves_total engine g row col hE
          rw [hms, exc_bind_ok]
          rfl
      · rw [if_neg hco]
        rfl
  · obtain ⟨m, hm⟩ := mm_mutate_total engine g fr fc tr tc promo hE hWF ht
      hfr1 hfr2 hfc1 hfc2 htr1 htr2 htc1 htc2
    unfold make_move
    rw [hm, exc_bind_ok]
    rfl

/-- Counterexample to C10 as stated: row 8 is accepted by the
integer-parsing guard but raises an uncaught `IndexError` in both
endpoints instead of degrading to a returned status. -/
theorem claim_C10_counterexample :
    view_valid_moves engNone (some (initGame 0)) 8 0 = .error .indexError ∧
    view_make_move engNone 0 (some (initGame 0)) 8 0 7 0 none =
      .error .indexError := by
  exact ⟨by decide, by decide⟩

/-- Witness for the amended C10, including Python's negative indexing. -/
theorem claim_C10_witness :
    (get_valid_moves engNone (initGame 0) (-1) (-2)).isOk = true ∧
    (make_move engNone 0 (initGame 0) 6 0 5 0 none).isOk = true :=
  claim_C10_no_raise engNone 0 (initGame 0) (-1) (-2) 6 0 5 0 none engNone_ok
    (by constructor <;> decide) (Or.inl rfl)
    (by decide) (by decide) (by decide) (by decide) (by decide) (by decide)
    (by decide) (by decide) (by decide) (by decide) (by decide) (by decide)
